import Mathlib

/-!
# Verification of the Mahalanobis-brush statistical classification pipeline

Shallow embedding of the core pipeline of the `mahalanobis-brush` repository:

* `getCovariance`   (src/utils/getCovariance.ts) — unbiased sample covariance;
* `getMahalanobis`  (src/utils/getMahalanobis.ts) — Mahalanobis distance
  `sqrt((a-b)ᵗ · C⁻¹ · (a-b))`;
* `getSubsampledData` (src/utils/getMahalanobis.ts / getSampledData.ts) —
  random / systematic / cluster subsampling;
* the threshold classifier inside `updateChart` (src/components/Chart.tsx).

Numbers are embedded as rationals (`ℚ`); the final square root lands in `ℝ`.
A point of dimension `d` is a function `Fin d → ℚ`; a dataset is a `List` of
points.  JavaScript array accesses that can be out of range are embedded as
`Option`-valued lookups, and code paths that can throw (the cluster branch's
`clusters[nearestCenter].push`) return `Option`, with `none` standing for a
thrown `TypeError`.  The `Math.random()`-based comparator shuffles are embedded
as an explicit `shuffle` oracle parameter; no verified claim depends on it.
-/

/-- A data point of dimension `d` (the TS type `DataPoint = number[]` of
fixed length `dims`). -/
abbrev DataPoint (d : ℕ) : Type := Fin d → ℚ

/-! ## CovarianceEstimator (src/utils/getCovariance.ts) -/

/-- The running per-dimension sum loop of `getCovariance`
(`for (const point of data) means[i] += point[i]`), before the division. -/
def meanAcc {d : ℕ} (data : List (DataPoint d)) (i : Fin d) : ℚ :=
  data.foldl (fun acc p => acc + p i) 0

/-- Embeds `getCovariance({data, dims})`: per-dimension means (sum over points
divided by `data.length`) and then the accumulated products
`(point[i] - means[i]) * (point[j] - means[j])`, divided by
`data.length - 1`. -/
def getCovariance {d : ℕ} (data : List (DataPoint d)) :
    Matrix (Fin d) (Fin d) ℚ :=
  let means : Fin d → ℚ := fun i => meanAcc data i / (data.length : ℚ)
  Matrix.of fun i j =>
    (data.foldl (fun acc p => acc + (p i - means i) * (p j - means j)) 0) /
      ((data.length : ℚ) - 1)

/-! ## MahalanobisEvaluator (src/utils/getMahalanobis.ts) -/

/-- The matrix inverse used by `mathjs`'s `inv`, embedded over `ℚ` via the
adjugate formula; over a field this agrees with Mathlib's `Matrix.inv`. -/
def matInv {d : ℕ} (A : Matrix (Fin d) (Fin d) ℚ) : Matrix (Fin d) (Fin d) ℚ :=
  A.det⁻¹ • A.adjugate

/-- The value `multiply(multiply(diff, invCovMatrix), transposedDiff)` of
`getMahalanobis`: the row vector `diff` times `C⁻¹`, dotted with `diff`. -/
def mahalanobisSq {d : ℕ} (point1 point2 : DataPoint d)
    (covMatrix : Matrix (Fin d) (Fin d) ℚ) : ℚ :=
  let diff : Fin d → ℚ := point1 - point2
  Matrix.dotProduct (Matrix.vecMul diff (matInv covMatrix)) diff

/-- Embeds `getMahalanobis({point1, point2, covMatrix})`:
`Math.sqrt((x-y)^T * C^-1 * (x-y))`. -/
noncomputable def getMahalanobis {d : ℕ} (point1 point2 : DataPoint d)
    (covMatrix : Matrix (Fin d) (Fin d) ℚ) : ℝ :=
  Real.sqrt ((mahalanobisSq point1 point2 covMatrix : ℚ) : ℝ)

/-! ## Spec-side formulations used to state the claims -/

/-- The spec's per-dimension arithmetic mean `mean[i] = (Σ p[i]) / n`. -/
def specMean {d : ℕ} (data : List (DataPoint d)) (i : Fin d) : ℚ :=
  (data.map fun p => p i).sum / (data.length : ℚ)

/-- Folding `acc + f x` over a list starting from `a` is `a` plus the sum of
the mapped list. -/
theorem foldl_add_eq_sum {α : Type} (f : α → ℚ) :
    ∀ (l : List α) (a : ℚ), l.foldl (fun acc x => acc + f x) a = a + (l.map f).sum
  | [], a => by simp
  | x :: l, a => by
    simp only [List.foldl_cons, List.map_cons, List.sum_cons]
    rw [foldl_add_eq_sum f l (a + f x)]
    ring

theorem meanAcc_eq {d : ℕ} (data : List (DataPoint d)) (i : Fin d) :
    meanAcc data i = (data.map fun p => p i).sum := by
  rw [meanAcc, foldl_add_eq_sum, zero_add]

/-- C2: the covariance entry is the unbiased sample covariance of the spec. -/
theorem getCovariance_eq_unbiased_sample_covariance {d : ℕ}
    (data : List (DataPoint d)) (h : 2 ≤ data.length) (i j : Fin d) :
    getCovariance data i j =
      (1 / ((data.length : ℚ) - 1)) *
        (data.map fun p =>
          (p i - specMean data i) * (p j - specMean data j)).sum := by
  have hm : ∀ k : Fin d, meanAcc data k / (data.length : ℚ) = specMean data k := by
    intro k; rw [meanAcc_eq, specMean]
  simp only [getCovariance, Matrix.of_apply, hm]
  rw [foldl_add_eq_sum, zero_add, div_eq_mul_inv, one_div, mul_comm]

/-- C8: the returned covariance matrix is exactly symmetric; `C[i][j]` and
`C[j][i]` accumulate the same products in the same order, so the computed
values are equal on the nose (for every dataset, in particular those with at
least two points). -/
theorem getCovariance_symmetric {d : ℕ} (data : List (DataPoint d))
    (i j : Fin d) : getCovariance data i j = getCovariance data j i := by
  simp only [getCovariance, Matrix.of_apply]
  rw [foldl_add_eq_sum, foldl_add_eq_sum]
  have : (data.map fun p =>
        (p i - meanAcc data i / (data.length : ℚ)) *
          (p j - meanAcc data j / (data.length : ℚ))) =
      data.map fun p =>
        (p j - meanAcc data j / (data.length : ℚ)) *
          (p i - meanAcc data i / (data.length : ℚ)) := by
    apply List.map_congr_left
    intro p _
    ring
  rw [this]

theorem mahalanobisSq_symm {d : ℕ} (a b : DataPoint d)
    (covMatrix : Matrix (Fin d) (Fin d) ℚ) :
    mahalanobisSq a b covMatrix = mahalanobisSq b a covMatrix := by
  have hneg : b - a = -(a - b) := (neg_sub a b).symm
  simp only [mahalanobisSq, hneg, Matrix.neg_vecMul, Matrix.neg_dotProduct,
    Matrix.dotProduct_neg, neg_neg]

/-- C9: the Mahalanobis distance is symmetric in its two points, for every
covariance matrix (in particular every invertible one). -/
theorem getMahalanobis_symm {d : ℕ} (a b : DataPoint d)
    (covMatrix : Matrix (Fin d) (Fin d) ℚ) :
    getMahalanobis a b covMatrix = getMahalanobis b a covMatrix := by
  unfold getMahalanobis
  rw [mahalanobisSq_symm]

/-! ## Subsampler (src/utils/getMahalanobis.ts, `getSubsampledData`) -/

/-- The `SamplingMethod` union type of Chart.tsx. -/
inductive SamplingMethod : Type
  | random
  | systematic
  | cluster
deriving DecidableEq

/-- The squared-Euclidean reduction
`point.reduce((sum, val, i) => sum + Math.pow(val - center[i], 2), 0)`. -/
def sqDist {d : ℕ} (point center : DataPoint d) : ℚ :=
  ∑ i, (point i - center i) ^ 2

/-- The `centers.forEach` argmin loop: `minDist` starts at `Infinity`
(embedded as `none`), and a center strictly closer than the running minimum
replaces it, so ties keep the earlier index.  Returns `nearestCenter`,
which stays `0` when `centers` is empty. -/
def nearestCenter {d : ℕ} (centers : List (DataPoint d))
    (point : DataPoint d) : ℕ :=
  (centers.enum.foldl
    (fun acc ic =>
      match acc.1 with
      | none => (some (sqDist point ic.2), ic.1)
      | some m =>
        if sqDist point ic.2 < m then (some (sqDist point ic.2), ic.1) else acc)
    ((none : Option ℚ), 0)).2

/-- Embeds `clusters[idx].push(point)`: `none` when `clusters[idx]` is `undefined`
(the push then throws a `TypeError`). -/
def pushToCluster {d : ℕ} (clusters : List (List (DataPoint d))) (idx : ℕ)
    (point : DataPoint d) : Option (List (List (DataPoint d))) :=
  match clusters[idx]? with
  | none => none
  | some c => some (clusters.set idx (c ++ [point]))

/-- The `data.forEach` assignment loop of the cluster branch: clusters start
as `k` empty lists and every point is pushed onto the cluster of its nearest
center; a push onto a missing cluster aborts with `none`. -/
def buildClusters {d : ℕ} (centers : List (DataPoint d)) (k : ℕ)
    (data : List (DataPoint d)) : Option (List (List (DataPoint d))) :=
  data.foldl
    (fun acc point => acc.bind fun cl =>
      pushToCluster cl (nearestCenter centers point) point)
    (some (List.replicate k []))

/-- Embeds `Math.floor((cluster.length / data.length) * size)`. -/
def clusterQuota (clusterLen n s : ℕ) : ℕ :=
  (⌊((clusterLen : ℚ) / (n : ℚ)) * (s : ℚ)⌋).toNat

/-- Embeds `getSubsampledData({data, size, method})`.  `size = none` models the
`undefined` target size; the JS guard `!size || size >= data.length` returns
the dataset unchanged.  The `Math.random()`-comparator shuffles are the
`shuffle` oracle.  The result is `none` exactly when the JS code throws
(only possible in the cluster branch). -/
def getSubsampledData {d : ℕ} (shuffle : List (DataPoint d) → List (DataPoint d))
    (data : List (DataPoint d)) (size : Option ℕ) (method : SamplingMethod) :
    Option (List (DataPoint d)) :=
  match size with
  | none => some data
  | some s =>
    if s = 0 ∨ data.length ≤ s then some data
    else
      match method with
      | SamplingMethod.random => some ((shuffle data).take s)
      | SamplingMethod.systematic =>
        let step := data.length / s
        some (((data.enum.filter fun pr => decide (pr.1 % step = 0)).map
          Prod.snd).take s)
      | SamplingMethod.cluster =>
        let k := min 10 (s / 50)
        let centers := data.take k
        (buildClusters centers k data).map fun clusters =>
          clusters.flatMap fun cluster =>
            (shuffle cluster).take (clusterQuota cluster.length data.length s)

/-- C4: a missing target size, a zero target size, or a target size at least
the dataset length short-circuits every sampling method to the identity. -/
theorem getSubsampledData_identity {d : ℕ}
    (shuffle : List (DataPoint d) → List (DataPoint d))
    (data : List (DataPoint d)) (method : SamplingMethod) :
    getSubsampledData shuffle data none method = some data ∧
    getSubsampledData shuffle data (some 0) method = some data ∧
    ∀ s : ℕ, data.length ≤ s →
      getSubsampledData shuffle data (some s) method = some data := by
  refine ⟨rfl, ?_, ?_⟩
  · simp [getSubsampledData]
  · intro s hs
    simp [getSubsampledData, hs]

/-- Folding an `Option.bind` accumulator from `none` stays `none`. -/
theorem foldl_option_bind_none {α β : Type} (f : α → β → Option β) :
    ∀ l : List α, l.foldl (fun acc p => acc.bind (f p)) none = none
  | [] => rfl
  | _ :: l => by
    simp only [List.foldl_cons, Option.none_bind]
    exact foldl_option_bind_none f l

/-- C6 (amended): with `0 < targetSize < |dataset|` and `targetSize < 50`,
the cluster branch computes `k = 0`, creates zero clusters, and the very
first `clusters[nearestCenter].push(point)` accesses `clusters[0]` which does
not exist: the call throws (embedded as `none`) instead of returning an
empty sequence. -/
theorem cluster_k_zero_throws {d : ℕ}
    (shuffle : List (DataPoint d) → List (DataPoint d))
    (data : List (DataPoint d)) (s : ℕ)
    (h1 : 0 < s) (h2 : s < data.length) (h50 : s < 50) :
    getSubsampledData shuffle data (some s) SamplingMethod.cluster = none := by
  obtain ⟨p, rest, rfl⟩ : ∃ p rest, data = p :: rest := by
    cases data with
    | nil => simp at h2
    | cons p rest => exact ⟨p, rest, rfl⟩
  have hguard : ¬(s = 0 ∨ (p :: rest).length ≤ s) := by
    push_neg
    exact ⟨by omega, by omega⟩
  have hk : min 10 (s / 50) = 0 := by
    rw [Nat.div_eq_of_lt h50]
    simp
  simp only [getSubsampledData, if_neg hguard, hk, buildClusters,
    List.replicate, List.foldl_cons, Option.some_bind, pushToCluster,
    List.getElem?_nil, foldl_option_bind_none, Option.map_none']

/-- A concrete two-point, two-dimensional dataset. -/
def twoPointData : List (DataPoint 2) := [![0, 0], ![1, 1]]

/-- C6 counterexample: `subsample` with `targetSize = 1 < 50` on a two-point
dataset (`k = min(10, floor(1/50)) = 0`) throws — embedded result `none` —
rather than returning the empty sequence `some []` the claim asserts. -/
theorem cluster_k_zero_counterexample :
    getSubsampledData id twoPointData (some 1) SamplingMethod.cluster = none := by
  rfl

def stridePick {α : Type} (step : ℕ) (l : List α) : List α :=
  (l.enum.filter fun pr => decide (pr.1 % step = 0)).map Prod.snd

def multiplesBelow (step n : ℕ) : ℕ :=
  ((List.range n).filter fun i => decide (i % step = 0)).length

theorem enumFrom_filter_mod_shift {α : Type} (step : ℕ) :
    ∀ (l : List α) (j : ℕ),
      ((List.enumFrom (j + step) l).filter fun pr =>
          decide (pr.1 % step = 0)).map Prod.snd =
        ((List.enumFrom j l).filter fun pr =>
          decide (pr.1 % step = 0)).map Prod.snd
  | [], _ => rfl
  | a :: l, j => by
    have hmod : (j + step) % step = j % step := Nat.add_mod_right j step
    have ih := enumFrom_filter_mod_shift step l (j + 1)
    rw [show j + 1 + step = j + step + 1 by omega] at ih
    by_cases hj : j % step = 0
    · simp [List.enumFrom_cons, List.filter_cons, hmod, hj, ih]
    · simp [List.enumFrom_cons, List.filter_cons, hmod, hj, ih]

theorem enumFrom_filter_mod_eq_drop {α : Type} (step : ℕ) :
    ∀ (l : List α) (j : ℕ), 1 ≤ j → j ≤ step →
      ((List.enumFrom j l).filter fun pr =>
          decide (pr.1 % step = 0)).map Prod.snd =
        stridePick step (l.drop (step - j))
  | [], j, _, _ => by simp [stridePick]
  | b :: l, j, hj1, hjs => by
    rcases eq_or_lt_of_le hjs with hje | hjlt
    · rw [hje, Nat.sub_self, List.drop_zero]
      have hshift := enumFrom_filter_mod_shift step l 1
      rw [show 1 + step = step + 1 by omega] at hshift
      simp [stridePick, List.enum, List.enumFrom_cons, List.filter_cons,
        Nat.mod_self, hshift]
    · have hmod : j % step = j := Nat.mod_eq_of_lt hjlt
      have hj0 : ¬(j % step = 0) := by omega
      have ih := enumFrom_filter_mod_eq_drop step l (j + 1) (by omega) (by omega)
      have hdrop : (b :: l).drop (step - j) = l.drop (step - (j + 1)) := by
        rw [show step - j = (step - (j + 1)) + 1 by omega, List.drop_succ_cons]
      simp [List.enumFrom_cons, List.filter_cons, hj0, ih, hdrop]

theorem stridePick_cons {α : Type} (step : ℕ) (hstep : 0 < step) (a : α)
    (l : List α) :
    stridePick step (a :: l) = a :: stridePick step (l.drop (step - 1)) := by
  have h := enumFrom_filter_mod_eq_drop step l 1 le_rfl hstep
  simp [stridePick, List.enum, List.enumFrom_cons, List.filter_cons,
    Nat.zero_mod, h]

theorem stridePick_getElem {α : Type} (step : ℕ) (hstep : 0 < step) :
    ∀ (n : ℕ) (l : List α), l.length ≤ n → ∀ k : ℕ,
      (stridePick step l)[k]? = l[k * step]?
  | _, [], _, k => by simp [stridePick]
  | 0, a :: l, hl, k => by simp at hl
  | n + 1, a :: l, hl, 0 => by
    rw [stridePick_cons step hstep]
    simp
  | n + 1, a :: l, hl, k + 1 => by
    rw [stridePick_cons step hstep, List.getElem?_cons_succ]
    rw [stridePick_getElem step hstep n (l.drop (step - 1))
      (by simp only [List.length_drop]; simp at hl; omega) k]
    rw [List.getElem?_drop]
    obtain ⟨m, hm⟩ : ∃ m, (k + 1) * step = m + 1 :=
      ⟨(k + 1) * step - 1, by
        have hpos : 0 < (k + 1) * step := Nat.mul_pos (Nat.succ_pos k) hstep
        omega⟩
    rw [hm, List.getElem?_cons_succ]
    rw [Nat.succ_mul] at hm
    congr 1
    omega

theorem stridePick_length {α : Type} (step : ℕ) (l : List α) :
    (stridePick step l).length = multiplesBelow step l.length := by
  simp only [stridePick, multiplesBelow, List.length_map]
  have h := congrArg
    (fun t => (t.filter fun i => decide (i % step = 0)).length)
    (List.enum_map_fst l)
  simp only [List.filter_map, List.length_map] at h
  rw [← h]
  rfl

/-- C3: with `0 < targetSize < |dataset|`, systematic subsampling returns the
elements at indices `0, step, 2·step, …` (`step = floor(|dataset| /
targetSize)`) in original order, truncated to `targetSize` elements; its
length is `min targetSize (number of multiples of step below |dataset|)`. -/
theorem systematic_subsample_spec {d : ℕ}
    (shuffle : List (DataPoint d) → List (DataPoint d))
    (data : List (DataPoint d)) (s : ℕ) (h1 : 0 < s) (h2 : s < data.length) :
    ∃ r, getSubsampledData shuffle data (some s) SamplingMethod.systematic =
        some r ∧
      r.length = min s (multiplesBelow (data.length / s) data.length) ∧
      ∀ k : ℕ, r[k]? =
        if k < s then data[k * (data.length / s)]? else none := by
  have hguard : ¬(s = 0 ∨ data.length ≤ s) := by
    push_neg
    exact ⟨by omega, by omega⟩
  have hstep : 0 < data.length / s := (Nat.one_le_div_iff h1).mpr (le_of_lt h2)
  refine ⟨(stridePick (data.length / s) data).take s, ?_, ?_, ?_⟩
  · simp only [getSubsampledData, if_neg hguard]
    rfl
  · rw [List.length_take, stridePick_length, inf_eq_min]
  · intro k
    rw [List.getElem?_take]
    by_cases hk : k < s
    · rw [if_pos hk, if_pos hk,
        stridePick_getElem (data.length / s) hstep data.length data le_rfl k]
    · rw [if_neg hk, if_neg hk]

/-! ## ThresholdClassifier (src/components/Chart.tsx, `updateChart`) -/

/-- Embeds `Math.floor(data.length * (percentage / 100))`. -/
def thresholdIndex (n : ℕ) (percentage : ℚ) : ℤ :=
  ⌊(n : ℚ) * (percentage / 100)⌋

/-- JavaScript array indexing `arr[i]` for a possibly negative integer
index: any out-of-range access yields `undefined` (`none`). -/
def jsGet {α : Type} (l : List α) (i : ℤ) : Option α :=
  if 0 ≤ i then l[i.toNat]? else none

/-- Embeds `sortedDistances[thresholdIndex]?.distance ?? Infinity`: the
distances of all points to the reference are sorted ascending and the entry
at `thresholdIndex` is looked up; `none` stands for the `?? Infinity`
fallback when the access is out of range. -/
noncomputable def thresholdDistance {d : ℕ} (data : List (DataPoint d))
    (ref : DataPoint d) (covMatrix : Matrix (Fin d) (Fin d) ℚ)
    (percentage : ℚ) : Option ℝ :=
  jsGet
    (List.insertionSort (· ≤ ·) (data.map fun p => getMahalanobis p ref covMatrix))
    (thresholdIndex data.length percentage)

/-- Embeds `distance <= threshold`, where a missing threshold is `Infinity`
(every distance satisfies `distance <= Infinity`). -/
noncomputable def selectedFlag (dv : ℝ) : Option ℝ → Bool
  | none => true
  | some t => decide (dv ≤ t)

/-- The threshold classifier of `updateChart`: every point of the full
dataset is paired with its Mahalanobis distance to the reference point and
the boolean `distance <= threshold`. -/
noncomputable def classify {d : ℕ} (data : List (DataPoint d))
    (ref : DataPoint d) (covMatrix : Matrix (Fin d) (Fin d) ℚ)
    (percentage : ℚ) : List (ℝ × Bool) :=
  data.map fun p =>
    (getMahalanobis p ref covMatrix,
      selectedFlag (getMahalanobis p ref covMatrix)
        (thresholdDistance data ref covMatrix percentage))

/-- The spec's reading of `distance ≤ thresholdDistance` with `none` as
`+∞`. -/
def optLE (dv : ℝ) : Option ℝ → Prop
  | none => True
  | some t => dv ≤ t

theorem selectedFlag_eq_true_iff (dv : ℝ) (th : Option ℝ) :
    selectedFlag dv th = true ↔ optLE dv th := by
  cases th with
  | none => simp [selectedFlag, optLE]
  | some t => simp [selectedFlag, optLE]

/-- In a `≤`-sorted real list, at least `m + 1` entries are `≤` the entry at
position `m`. -/
theorem sorted_countP_ge (s : List ℝ) (hs : List.Sorted (· ≤ ·) s)
    (m : ℕ) (hm : m < s.length) :
    m + 1 ≤ s.countP fun a => decide (a ≤ s[m]) := by
  have hmin : (s.take (m + 1)).length = m + 1 := by
    simp only [List.length_take]
    omega
  have hall : ∀ a ∈ s.take (m + 1), (fun a => decide (a ≤ s[m])) a = true := by
    intro a ha
    simp only [decide_eq_true_iff]
    obtain ⟨i, hi, rfl⟩ := List.getElem_of_mem ha
    rw [List.getElem_take]
    have hi' : i < m + 1 := by
      rw [hmin] at hi
      exact hi
    rcases Nat.lt_or_ge i m with hlt | hge
    · have := hs.rel_get_of_lt
        (a := ⟨i, by omega⟩) (b := ⟨m, hm⟩) (Fin.mk_lt_mk.mpr hlt)
      simpa using this
    · have hieq : i = m := by omega
      subst hieq
      exact le_refl _
  have h1 : (s.take (m + 1)).countP (fun a => decide (a ≤ s[m])) = m + 1 := by
    rw [List.countP_eq_length.mpr hall, hmin]
  have h2 : ∀ t : ℝ, s.countP (fun a => decide (a ≤ t)) =
      (s.take (m + 1)).countP (fun a => decide (a ≤ t)) +
        (s.drop (m + 1)).countP (fun a => decide (a ≤ t)) := by
    intro t
    conv_lhs => rw [← List.take_append_drop (m + 1) s]
    rw [List.countP_append]
  have h3 := h2 s[m]
  omega

/-- Core counting fact behind C1: for any list of distances and any
in-bounds-or-above nonnegative threshold index `z`, at least `z` entries
satisfy `distance <= threshold` where the threshold is the `z`-th smallest
distance (or `+∞` when `z` is past the end). -/
theorem countP_selected_ge (dists : List ℝ) (z : ℤ)
    (hz0 : 0 ≤ z) (hzlen : z ≤ (dists.length : ℤ)) :
    z ≤ (dists.countP fun dv =>
      selectedFlag dv (jsGet (List.insertionSort (· ≤ ·) dists) z) : ℤ) := by
  have hperm := List.perm_insertionSort (α := ℝ) (· ≤ ·) dists
  have hslen : (List.insertionSort (· ≤ ·) dists).length = dists.length :=
    hperm.length_eq
  have hcount : ∀ th : Option ℝ,
      dists.countP (fun dv => selectedFlag dv th) =
        (List.insertionSort (· ≤ ·) dists).countP (fun dv => selectedFlag dv th) :=
    fun th => (hperm.countP_eq _).symm
  rw [jsGet, if_pos hz0]
  rcases Nat.lt_or_ge z.toNat (List.insertionSort (· ≤ ·) dists).length with hlt | hge
  · rw [List.getElem?_eq_getElem hlt]
    have hsorted : List.Sorted (· ≤ ·) (List.insertionSort (· ≤ ·) dists) :=
      List.sorted_insertionSort _ _
    have hge1 := sorted_countP_ge _ hsorted z.toNat hlt
    rw [hcount]
    have hzt : (z.toNat : ℤ) = z := Int.toNat_of_nonneg hz0
    have : (fun dv => selectedFlag dv
        (some (List.insertionSort (· ≤ ·) dists)[z.toNat])) =
        fun a => decide (a ≤ (List.insertionSort (· ≤ ·) dists)[z.toNat]) := rfl
    rw [this]
    omega
  · rw [List.getElem?_eq_none hge]
    have hallsel : dists.countP (fun dv => selectedFlag dv none) = dists.length :=
      List.countP_eq_length.mpr fun a _ => rfl
    rw [hallsel]
    exact hzlen

/-- C1: for every dataset, reference point, covariance matrix (in particular
every invertible one) and percentage in `[0, 100]`, a classified point is
selected iff its distance is `≤` the threshold distance (the sorted distance
at `thresholdIndex = floor(n · percentage / 100)`, or `+∞` when that index
does not exist), so all ties at the threshold are included; and the number
of selected points is at least `floor(n · percentage / 100)`. -/
theorem classify_spec {d : ℕ} (data : List (DataPoint d)) (ref : DataPoint d)
    (covMatrix : Matrix (Fin d) (Fin d) ℚ) (percentage : ℚ)
    (h0 : 0 ≤ percentage) (h100 : percentage ≤ 100) :
    (∀ pr ∈ classify data ref covMatrix percentage,
        (pr.2 = true ↔ optLE pr.1 (thresholdDistance data ref covMatrix percentage))) ∧
    thresholdIndex data.length percentage ≤
      ((classify data ref covMatrix percentage).countP fun pr => pr.2 : ℤ) := by
  constructor
  · intro pr hpr
    simp only [classify, List.mem_map] at hpr
    obtain ⟨q, _, rfl⟩ := hpr
    exact selectedFlag_eq_true_iff _ _
  · have hmap : ((classify data ref covMatrix percentage).countP fun pr => pr.2) =
        (data.map fun p => getMahalanobis p ref covMatrix).countP
          (fun dv => selectedFlag dv (thresholdDistance data ref covMatrix percentage)) := by
      rw [classify, List.countP_map, List.countP_map]
      rfl
    rw [hmap, thresholdDistance]
    have hlen : ((data.map fun p => getMahalanobis p ref covMatrix).length : ℤ) =
        (data.length : ℤ) := by
      rw [List.length_map]
    have hz0 : 0 ≤ thresholdIndex data.length percentage := by
      rw [thresholdIndex]
      exact Int.floor_nonneg.mpr
        (mul_nonneg (Nat.cast_nonneg _) (div_nonneg h0 (by norm_num)))
    have hzlen : thresholdIndex data.length percentage ≤ (data.length : ℤ) := by
      rw [thresholdIndex]
      calc ⌊(data.length : ℚ) * (percentage / 100)⌋
          ≤ ⌊((data.length : ℕ) : ℚ)⌋ := by
            apply Int.floor_le_floor
            exact mul_le_of_le_one_right (Nat.cast_nonneg _)
              ((div_le_one (by norm_num)).mpr h100)
        _ = (data.length : ℤ) := Int.floor_natCast _
    have := countP_selected_ge (data.map fun p => getMahalanobis p ref covMatrix)
      (thresholdIndex data.length percentage) hz0 (by rw [hlen]; exact hzlen)
    exact this

/-- C5 (amended): for a non-empty dataset, an invertible covariance matrix
(on a singular one `mathjs`'s `inv` throws before any thresholding runs)
and `percentage < 0`, the threshold index is negative, so the array access
`sortedDistances[idx]` is out of range and the `?? Infinity` fallback makes
the threshold `+∞`: every point is selected (rather than none). -/
theorem classify_negative_percentage_selects_all {d : ℕ}
    (data : List (DataPoint d)) (ref : DataPoint d)
    (covMatrix : Matrix (Fin d) (Fin d) ℚ) (percentage : ℚ)
    (hdet : covMatrix.det ≠ 0) (hne : data ≠ []) (hneg : percentage < 0) :
    thresholdDistance data ref covMatrix percentage = none ∧
    ((classify data ref covMatrix percentage).countP fun pr => pr.2) =
      data.length := by
  have hn : 0 < data.length := List.length_pos.mpr hne
  have hidx : thresholdIndex data.length percentage < 0 := by
    rw [thresholdIndex]
    refine Int.floor_lt.mpr ?_
    push_cast
    exact mul_neg_of_pos_of_neg (by exact_mod_cast hn)
      (div_neg_of_neg_of_pos hneg (by norm_num))
  have hth : thresholdDistance data ref covMatrix percentage = none := by
    rw [thresholdDistance, jsGet, if_neg (by omega)]
  refine ⟨hth, ?_⟩
  have hlen : (classify data ref covMatrix percentage).length = data.length := by
    rw [classify, List.length_map]
  rw [← hlen]
  apply List.countP_eq_length.mpr
  intro pr hpr
  simp only [classify, List.mem_map] at hpr
  obtain ⟨q, _, rfl⟩ := hpr
  simp [hth, selectedFlag]

/-- C5 counterexample: on the two-point dataset with the identity covariance
and `percentage = -10`, the classifier selects BOTH points (count 2), not
zero: the negative index lookup falls back to an infinite threshold. -/
theorem classify_negative_percentage_counterexample :
    ((classify twoPointData ![0, 0] 1 (-10)).countP fun pr => pr.2) = 2 := by
  have hidx : thresholdIndex twoPointData.length (-10) < 0 := by
    rw [thresholdIndex]
    refine Int.floor_lt.mpr ?_
    norm_num [twoPointData]
  have hth : thresholdDistance twoPointData ![0, 0] 1 (-10) = none := by
    rw [thresholdDistance, jsGet, if_neg (by omega)]
  simp only [twoPointData] at hth
  simp [classify, hth, selectedFlag, twoPointData]

/-- C10: with `percentage = 0` on a non-empty dataset, `thresholdIndex = 0`
makes the threshold the minimum distance: at least one point is selected,
and every point whose distance is minimal among all points is selected. -/
theorem classify_percentage_zero_selects_min {d : ℕ}
    (data : List (DataPoint d)) (ref : DataPoint d)
    (covMatrix : Matrix (Fin d) (Fin d) ℚ) (hne : data ≠ []) :
    1 ≤ ((classify data ref covMatrix 0).countP fun pr => pr.2) ∧
    ∀ pr ∈ classify data ref covMatrix 0,
      (∀ q ∈ data, pr.1 ≤ getMahalanobis q ref covMatrix) → pr.2 = true := by
  have hn : 0 < data.length := List.length_pos.mpr hne
  have hperm := List.perm_insertionSort (α := ℝ) (· ≤ ·)
    (data.map fun p => getMahalanobis p ref covMatrix)
  have hslen : 0 <
      (List.insertionSort (· ≤ ·)
        (data.map fun p => getMahalanobis p ref covMatrix)).length := by
    rw [hperm.length_eq, List.length_map]
    exact hn
  have hidx : thresholdIndex data.length 0 = 0 := by
    simp [thresholdIndex]
  have hth : thresholdDistance data ref covMatrix 0 =
      some (List.insertionSort (· ≤ ·)
        (data.map fun p => getMahalanobis p ref covMatrix))[0] := by
    rw [thresholdDistance, hidx, jsGet, if_pos le_rfl]
    exact List.getElem?_eq_getElem hslen
  have htmem : (List.insertionSort (· ≤ ·)
      (data.map fun p => getMahalanobis p ref covMatrix))[0] ∈
      data.map fun p => getMahalanobis p ref covMatrix := by
    rw [← hperm.mem_iff]
    exact List.getElem_mem hslen
  obtain ⟨q0, hq0, hq0t⟩ := List.mem_map.mp htmem
  constructor
  · refine List.countP_pos_iff.mpr ?_
    refine ⟨(getMahalanobis q0 ref covMatrix,
      selectedFlag (getMahalanobis q0 ref covMatrix)
        (thresholdDistance data ref covMatrix 0)), ?_, ?_⟩
    · exact List.mem_map_of_mem _ hq0
    · rw [hth, hq0t]
      simp [selectedFlag]
  · intro pr hpr hmin
    simp only [classify, List.mem_map] at hpr
    obtain ⟨q, hq, rfl⟩ := hpr
    rw [hth]
    simp only [selectedFlag, decide_eq_true_iff]
    rw [← hq0t]
    exact hmin q0 hq0

/-! ## Witnesses: the theorems above applied at concrete inputs -/

/-- A concrete five-point, two-dimensional dataset. -/
def fivePointData : List (DataPoint 2) :=
  [![0, 0], ![1, 0], ![2, 0], ![3, 0], ![4, 0]]

theorem getCovariance_eq_unbiased_sample_covariance_witness :
    2 ≤ twoPointData.length ∧
    getCovariance twoPointData 0 1 =
      (1 / ((twoPointData.length : ℚ) - 1)) *
        (twoPointData.map fun p =>
          (p 0 - specMean twoPointData 0) * (p 1 - specMean twoPointData 1)).sum :=
  ⟨by decide,
    getCovariance_eq_unbiased_sample_covariance twoPointData (by decide) 0 1⟩

theorem systematic_subsample_spec_witness :
    0 < 2 ∧ 2 < fivePointData.length ∧
    ∃ r, getSubsampledData id fivePointData (some 2) SamplingMethod.systematic =
        some r ∧
      r.length = min 2 (multiplesBelow (fivePointData.length / 2)
        fivePointData.length) ∧
      ∀ k : ℕ, r[k]? =
        if k < 2 then fivePointData[k * (fivePointData.length / 2)]? else none :=
  ⟨by decide, by decide,
    systematic_subsample_spec id fivePointData 2 (by decide) (by decide)⟩

theorem getSubsampledData_identity_witness :
    twoPointData.length ≤ 2 ∧
    getSubsampledData id twoPointData (some 2) SamplingMethod.random =
      some twoPointData :=
  ⟨by decide,
    (getSubsampledData_identity id twoPointData SamplingMethod.random).2.2 2
      (by decide)⟩

theorem cluster_k_zero_throws_witness :
    0 < 1 ∧ 1 < twoPointData.length ∧ 1 < 50 ∧
    getSubsampledData (fun l => l.reverse) twoPointData (some 1)
      SamplingMethod.cluster = none :=
  ⟨Nat.one_pos, by decide, by decide,
    cluster_k_zero_throws (fun l => l.reverse) twoPointData 1 Nat.one_pos
      (by decide) (by decide)⟩

theorem classify_spec_witness :
    (0 : ℚ) ≤ 50 ∧ (50 : ℚ) ≤ 100 ∧
    ((∀ pr ∈ classify twoPointData ![0, 0] 1 50,
        (pr.2 = true ↔ optLE pr.1 (thresholdDistance twoPointData ![0, 0] 1 50))) ∧
      thresholdIndex twoPointData.length 50 ≤
        ((classify twoPointData ![0, 0] 1 50).countP fun pr => pr.2 : ℤ)) :=
  ⟨by norm_num, by norm_num,
    classify_spec twoPointData ![0, 0] 1 50 (by norm_num) (by norm_num)⟩

theorem classify_negative_percentage_selects_all_witness :
    (1 : Matrix (Fin 2) (Fin 2) ℚ).det ≠ 0 ∧
    twoPointData ≠ [] ∧ (-10 : ℚ) < 0 ∧
    (thresholdDistance twoPointData ![1, 1] 1 (-10) = none ∧
      ((classify twoPointData ![1, 1] 1 (-10)).countP fun pr => pr.2) =
        twoPointData.length) :=
  ⟨by simp, by decide, by norm_num,
    classify_negative_percentage_selects_all twoPointData ![1, 1] 1 (-10)
      (by simp) (by decide) (by norm_num)⟩

theorem classify_percentage_zero_selects_min_witness :
    twoPointData ≠ [] ∧
    (1 ≤ ((classify twoPointData ![0, 0] 1 0).countP fun pr => pr.2) ∧
      ∀ pr ∈ classify twoPointData ![0, 0] 1 0,
        (∀ q ∈ twoPointData, pr.1 ≤ getMahalanobis q ![0, 0] 1) →
          pr.2 = true) :=
  ⟨by decide,
    classify_percentage_zero_selects_min twoPointData ![0, 0] 1 (by decide)⟩
